import Mathlib

/-!
# Wayfinder route-optimization engine: a shallow embedding

This file embeds the Wayfinder TypeScript route-optimization engine in Lean 4
and settles the specification's claims about it.

Embedding conventions:
* `PublicKey` values (asset mints and pool addresses) are opaque identifiers
  compared only for equality; they are modelled as `Nat`.
* `BN` (bn.js big numbers) are arbitrary-precision integers; all quantities
  appearing here (reserves, amounts, fees) are non-negative `u64`-ranged
  values per the on-chain layout, so they are modelled as `Nat`.
  `BN.div` truncates, which on non-negative values is `Nat` floor division.
* The data model fixes `0 ≤ feeBps < 10000`, so the JS expression
  `10000 - pool.feeBps` is non-negative and `Nat` subtraction is exact.
* `maxHops` is a plain JS number that may be negative; it is modelled as `Int`.
* Fallible operations (`BN | null` returns, and the `bn.js` division-by-zero
  throw) are modelled as `Option`.
* The `while (openSet.length > 0)` loop terminates on every input (each push
  strictly improves a best-known entry drawn from a finite value set); it is
  modelled with an explicit fuel parameter large enough to never be exhausted
  on the runs considered, and all universal theorems below are proved for
  every fuel value.
-/

namespace Wayfinder

/-- `PoolInfo` from `types` / `PoolInfoState`: a two-asset constant-product
pool snapshot.  Data-model invariant (spec §3): `0 ≤ feeBps < 10000`. -/
structure PoolInfo where
  address : Nat
  tokenA : Nat
  tokenB : Nat
  feeBps : Nat
  reserveA : Nat
  reserveB : Nat
deriving DecidableEq, Repr

/-- `AStarPathfinder.getOtherToken`: the pool asset opposite `token`, or
`none` when `token` is in neither side of the pool. -/
def getOtherToken (pool : PoolInfo) (token : Nat) : Option Nat :=
  if token = pool.tokenA then some pool.tokenB
  else if token = pool.tokenB then some pool.tokenA
  else none

/-- `AStarPathfinder.getOutputAmount`: constant-product pricing with fee.
Returns `none` when `inputMint` is in neither side of the pool or the
denominator is zero. -/
def getOutputAmount (pool : PoolInfo) (inputMint : Nat) (amountIn : Nat) :
    Option Nat :=
  let isTokenA := inputMint = pool.tokenA
  let isTokenB := inputMint = pool.tokenB
  if ¬isTokenA ∧ ¬isTokenB then none
  else
    let reserveIn := if isTokenA then pool.reserveA else pool.reserveB
    let reserveOut := if isTokenA then pool.reserveB else pool.reserveA
    let feeFactor := 10000 - pool.feeBps
    let amountInWithFee := amountIn * feeFactor
    let numerator := amountInWithFee * reserveOut
    let denominator := reserveIn * 10000 + amountInWithFee
    if denominator = 0 then none
    else some (numerator / denominator)

/-- `PoolInfoState.getOutputAmount` (state module): same formula but with no
zero-denominator guard; the `bn.js` division-by-zero throw is modelled as
`none`. -/
def stateGetOutputAmount (pool : PoolInfo) (inputMint : Nat) (amountIn : Nat) :
    Option Nat :=
  let isTokenA := inputMint = pool.tokenA
  let isTokenB := inputMint = pool.tokenB
  if ¬isTokenA ∧ ¬isTokenB then none
  else
    let reserveIn := if isTokenA then pool.reserveA else pool.reserveB
    let reserveOut := if isTokenA then pool.reserveB else pool.reserveA
    let feeFactor := 10000 - pool.feeBps
    let amountInWithFee := amountIn * feeFactor
    let numerator := amountInWithFee * reserveOut
    let denominator := reserveIn * 10000 + amountInWithFee
    if denominator = 0 then none
    else some (numerator / denominator)

/-- `PathNode`: a frontier entry of the search. -/
structure PathNode where
  token : Nat
  cost : Nat
  hops : Nat
  path : List Nat
  amountOut : Nat
deriving DecidableEq, Repr

/-- The JS sort comparator (ascending `cost`, ties by ascending `hops`):
`true` iff `a` must come strictly before `b`. -/
def nodeBefore (a b : PathNode) : Bool :=
  a.cost < b.cost || (a.cost == b.cost && a.hops < b.hops)

/-- Stable insertion used to model `Array.prototype.sort` (stable per
ES2019): an element is placed after all existing entries it does not strictly
precede. -/
def insertNode (x : PathNode) : List PathNode → List PathNode
  | [] => [x]
  | y :: ys => if nodeBefore x y then x :: y :: ys else y :: insertNode x ys

/-- `openSet.sort(...)`: stable sort by `(cost, hops)` ascending. -/
def sortNodes (l : List PathNode) : List PathNode :=
  l.foldl (fun acc x => insertNode x acc) []

/-- A pointwise update of the `bestRoutes` map (keys are mints; `toBase58`
is injective, so the map is keyed by the mint itself). -/
def setBest (m : Nat → Option (Nat × Nat)) (k : Nat) (v : Nat × Nat) :
    Nat → Option (Nat × Nat) :=
  fun t => if t = k then some v else m t

/-- The mutable state of one `findOptimalRoute` invocation. -/
structure SearchState where
  openSet : List PathNode
  visited : List Nat
  bestRoutes : Nat → Option (Nat × Nat)
  bestSolution : Option (List Nat × Nat)

/-- One iteration of the neighbor `for (const pool of this.pools)` loop:
possibly pushes a new node and updates `bestRoutes`.  `visited` already
contains the token of `current` and is not changed inside the loop. -/
def expandPool (visited : List Nat) (current : PathNode)
    (acc : List PathNode × (Nat → Option (Nat × Nat))) (pool : PoolInfo) :
    List PathNode × (Nat → Option (Nat × Nat)) :=
  match getOtherToken pool current.token with
  | none => acc
  | some nextToken =>
    if nextToken ∈ visited then acc
    else
      match getOutputAmount pool current.token current.amountOut with
      | none => acc
      | some amountOut =>
        if amountOut = 0 then acc
        else
          let shouldExplore : Bool :=
            match acc.2 nextToken with
            | none => true
            | some best =>
                best.1 < amountOut ||
                  (amountOut == best.1 && current.hops + 1 < best.2)
          if shouldExplore then
            (acc.1 ++ [{ token := nextToken,
                         cost := 2 ^ 64 - amountOut,
                         hops := current.hops + 1,
                         path := current.path ++ [pool.address],
                         amountOut := amountOut }],
             setBest acc.2 nextToken (amountOut, current.hops + 1))
          else acc

/-- The `while (openSet.length > 0)` loop of `findOptimalRoute`, with fuel. -/
def searchLoop (pools : List PoolInfo) (maxHops : Int) (outputMint : Nat) :
    Nat → SearchState → Option (List Nat × Nat)
  | 0, st => st.bestSolution
  | Nat.succ fuel, st =>
    match sortNodes st.openSet with
    | [] => st.bestSolution
    | current :: rest =>
      let stale : Bool :=
        match st.bestRoutes current.token with
        | some best =>
            current.amountOut < best.1 ||
              (current.amountOut == best.1 && best.2 < current.hops)
        | none => false
      if stale then
        searchLoop pools maxHops outputMint fuel { st with openSet := rest }
      else if current.token = outputMint then
        let newSolution :=
          match st.bestSolution with
          | none => some (current.path, current.amountOut)
          | some sol =>
              if sol.2 < current.amountOut then
                some (current.path, current.amountOut)
              else some sol
        searchLoop pools maxHops outputMint fuel
          { st with openSet := rest, bestSolution := newSolution }
      else if maxHops ≤ (current.hops : Int) then
        searchLoop pools maxHops outputMint fuel { st with openSet := rest }
      else
        let visited' := current.token :: st.visited
        let expanded := pools.foldl (expandPool visited' current)
          (rest, st.bestRoutes)
        searchLoop pools maxHops outputMint fuel
          { openSet := expanded.1, visited := visited',
            bestRoutes := expanded.2, bestSolution := st.bestSolution }

/-- An upper bound on the number of loop iterations: every push strictly
improves a `bestRoutes` entry whose amounts come from compositions of at
most five pool edges, a finite set.  The runs below stop (empty `openSet`)
long before this fuel runs out. -/
def searchFuel (pools : List PoolInfo) : Nat :=
  5 * (2 * pools.length + 1) ^ 6 + 2

/-- `AStarPathfinder.findOptimalRoute`, for an already-stored `maxHops`
bound (the constructor clamp is `clampMaxHops` below). -/
def findOptimalRoute (pools : List PoolInfo) (maxHops : Int)
    (inputMint outputMint amountIn : Nat) : Option (List Nat × Nat) :=
  if inputMint = outputMint then none
  else
    searchLoop pools maxHops outputMint (searchFuel pools)
      { openSet := [{ token := inputMint, cost := 0, hops := 0, path := [],
                      amountOut := amountIn }],
        visited := [],
        bestRoutes := setBest (fun _ => none) inputMint (amountIn, 0),
        bestSolution := none }

/-- The constructor `AStarPathfinder(pools, maxHops)` stores
`Math.min(maxHops, 5)`. -/
def clampMaxHops (maxHops : Int) : Int :=
  min maxHops 5

/-- `new AStarPathfinder(pools, maxHops).findOptimalRoute(...)`: search with
the constructor-clamped hop bound. -/
def pathfinderFindOptimalRoute (pools : List PoolInfo) (maxHops : Int)
    (inputMint outputMint amountIn : Nat) : Option (List Nat × Nat) :=
  findOptimalRoute pools (clampMaxHops maxHops) inputMint outputMint amountIn

/-- `SwapQuote` from `types`.  The JS `priceImpact` field is a plain number;
the only value the client ever writes into it is the integer `0`, modelled
in `ℚ` so that it can be compared with the exact spot-price shortfall. -/
structure SwapQuote where
  inputAmount : Nat
  outputAmount : Nat
  priceImpact : ℚ
  fee : Nat
  route : List Nat
deriving DecidableEq, Repr

/-- `WayfinderClient.getSwapQuote`: run the pathfinder, then total the fees
as `amountIn * feeBps / 10000` per route pool (the original `amountIn` at
every hop) and set `priceImpact` to the literal `0` the code returns. -/
def getSwapQuote (pools : List PoolInfo) (maxHops : Int)
    (inputMint outputMint amountIn : Nat) : Option SwapQuote :=
  match pathfinderFindOptimalRoute pools maxHops inputMint outputMint amountIn with
  | none => none
  | some result =>
    let totalFee := result.1.foldl (fun acc poolAddress =>
        match pools.find? (fun p => p.address == poolAddress) with
        | some pool => acc + amountIn * pool.feeBps / 10000
        | none => acc) 0
    let priceImpact : ℚ := 0
    some { inputAmount := amountIn, outputAmount := result.2,
           priceImpact := priceImpact, fee := totalFee, route := result.1 }

/-- The sequence of intermediate assets visited by taking the pools `ps` in
order starting from asset `start`, each hop moving to the pool's other
asset; `none` if some pool does not contain the asset it is entered with. -/
def walkAssets (start : Nat) : List PoolInfo → Option (List Nat)
  | [] => some []
  | p :: ps =>
    match getOtherToken p start with
    | none => none
    | some next => (walkAssets next ps).map (fun as => next :: as)

/-- The compounded output of feeding `amountIn` of asset `start` through the
pools `ps` in order under the §4.1 pricing formula: final asset and amount. -/
def chainOutput (start amountIn : Nat) : List PoolInfo → Option (Nat × Nat)
  | [] => some (start, amountIn)
  | p :: ps =>
    match getOtherToken p start, getOutputAmount p start amountIn with
    | some next, some amountOut => chainOutput next amountOut ps
    | _, _ => none

/-- Modelled from the spec (§4.4 Quote Calculator): replay the route
hop-by-hop from `amountIn`, recording the input entering each pool; the
total fee is the sum over hops of `inputAtHop × feeBps / 10000`.  Pools are
resolved from the snapshot by route address. -/
def specRouteFee (pools : List PoolInfo) (token amountIn : Nat) :
    List Nat → Option Nat
  | [] => some 0
  | addr :: rest =>
    match pools.find? (fun p => p.address == addr) with
    | none => none
    | some pool =>
      match getOtherToken pool token, getOutputAmount pool token amountIn with
      | some next, some amountOut =>
        (specRouteFee pools next amountOut rest).map
          (fun fees => amountIn * pool.feeBps / 10000 + fees)
      | _, _ => none

/-- Modelled from the spec (§4.4 Quote Calculator): price impact is the
percentage shortfall of the realized execution price `amountOut / amountIn`
versus the first hop pool's spot price `reserveOut / reserveIn`. -/
def specPriceImpact (reserveIn reserveOut amountIn amountOut : Nat) : ℚ :=
  100 * (1 - ((amountOut : ℚ) / (amountIn : ℚ)) /
    ((reserveOut : ℚ) / (reserveIn : ℚ)))

/-! ## Concrete snapshots used by the claims

`tstPool1`–`tstPool3` are the pools of the repository's own test suite
(mints `10`, `11`, `12` standing for its tokens A, B, C).

`cexP1`–`cexP5` form a snapshot with an appreciating pool (`cexP3`) placed
behind a slow two-hop approach; mints are `0` (source), `1`, `2`, `3`, and
`4` (destination). -/

def tstPool1 : PoolInfo := ⟨1, 10, 11, 30, 1000000, 2000000⟩

def tstPool2 : PoolInfo := ⟨2, 11, 12, 30, 2000000, 3000000⟩

def tstPool3 : PoolInfo := ⟨3, 10, 12, 50, 1000000, 2500000⟩

def cexP1 : PoolInfo := ⟨101, 0, 1, 0, 1000, 1000⟩

def cexP2 : PoolInfo := ⟨102, 1, 2, 0, 500, 800⟩

def cexP3 : PoolInfo := ⟨103, 2, 3, 0, 400, 2000⟩

def cexP4 : PoolInfo := ⟨104, 0, 3, 0, 9000, 100⟩

def cexP5 : PoolInfo := ⟨105, 3, 4, 0, 10, 19⟩

def cexPools : List PoolInfo := [cexP1, cexP2, cexP3, cexP4, cexP5]

/-- A pool whose input-side reserve (`reserveA`, for input mint `10`) is
zero while the output-side reserve is `5`. -/
def zeroReservePool : PoolInfo := ⟨7, 10, 11, 30, 0, 5⟩

/-! ## Search invariants

`NodeOK` is the invariant of every frontier entry: its `path` is the address
trace of a pool sequence drawn from the snapshot, its implied asset walk is
defined and repeats no asset, all walk assets except the final one are
already in `visited`, and (for non-initial entries) its amount is positive
and its hop count is within the bound. -/

def NodeOK (pools : List PoolInfo) (maxHops : Int) (inputMint : Nat)
    (visited : List Nat) (n : PathNode) : Prop :=
  ∃ ps as,
    n.path = ps.map PoolInfo.address ∧
    (∀ p ∈ ps, p ∈ pools) ∧
    walkAssets inputMint ps = some as ∧
    n.hops = ps.length ∧
    n.token = as.getLastD inputMint ∧
    (inputMint :: as).Nodup ∧
    (∀ t ∈ (inputMint :: as).dropLast, t ∈ visited) ∧
    (ps ≠ [] → 0 < n.amountOut ∧ (ps.length : Int) ≤ maxHops)

/-- The invariant of the running `bestSolution`: any recorded route is a
non-empty in-snapshot pool trace of bounded length with positive output and
a repetition-free implied asset walk. -/
def SolOK (pools : List PoolInfo) (maxHops : Int) (inputMint : Nat)
    (sol : Option (List Nat × Nat)) : Prop :=
  ∀ r amt, sol = some (r, amt) →
    r ≠ [] ∧ 0 < amt ∧ (r.length : Int) ≤ maxHops ∧
    ∃ ps as, r = ps.map PoolInfo.address ∧ (∀ p ∈ ps, p ∈ pools) ∧
      walkAssets inputMint ps = some as ∧ (inputMint :: as).Nodup

/-- The invariant of a whole search state. -/
def StateOK (pools : List PoolInfo) (maxHops : Int) (inputMint : Nat)
    (st : SearchState) : Prop :=
  (∀ n ∈ st.openSet, NodeOK pools maxHops inputMint st.visited n) ∧
  SolOK pools maxHops inputMint st.bestSolution

theorem mem_insertNode {x y : PathNode} :
    ∀ {l : List PathNode}, y ∈ insertNode x l → y = x ∨ y ∈ l
  | [], h => by simpa [insertNode] using h
  | z :: zs, h => by
    by_cases hb : nodeBefore x z
    · simp only [insertNode, if_pos hb, List.mem_cons] at h
      rcases h with rfl | h
      · exact Or.inl rfl
      · exact Or.inr (List.mem_cons.mpr h)
    · simp only [insertNode, if_neg hb, List.mem_cons] at h
      rcases h with h | h
      · exact Or.inr (by simp [h])
      · rcases mem_insertNode h with h' | h'
        · exact Or.inl h'
        · exact Or.inr (List.mem_cons_of_mem _ h')

theorem mem_sortNodes_aux {y : PathNode} :
    ∀ (l acc : List PathNode),
      y ∈ l.foldl (fun acc x => insertNode x acc) acc → y ∈ acc ∨ y ∈ l
  | [], acc, h => Or.inl h
  | x :: xs, acc, h => by
    rcases mem_sortNodes_aux xs (insertNode x acc) h with h' | h'
    · rcases mem_insertNode h' with h'' | h''
      · exact Or.inr (by simp [h''])
      · exact Or.inl h''
    · exact Or.inr (List.mem_cons_of_mem _ h')

theorem mem_sortNodes {y : PathNode} {l : List PathNode}
    (h : y ∈ sortNodes l) : y ∈ l := by
  rcases mem_sortNodes_aux l [] h with h' | h'
  · simp at h'
  · exact h'

theorem NodeOK_mono {pools : List PoolInfo} {maxHops : Int} {inputMint : Nat}
    {visited visited' : List Nat} {n : PathNode}
    (hsub : ∀ t ∈ visited, t ∈ visited')
    (h : NodeOK pools maxHops inputMint visited n) :
    NodeOK pools maxHops inputMint visited' n := by
  obtain ⟨ps, as, h1, h2, h3, h4, h5, h6, h7, h8⟩ := h
  exact ⟨ps, as, h1, h2, h3, h4, h5, h6, fun t ht => hsub t (h7 t ht), h8⟩

theorem walkAssets_length {inputMint : Nat} :
    ∀ {ps : List PoolInfo} {as : List Nat},
      walkAssets inputMint ps = some as → as.length = ps.length
  | [], as, h => by simp [walkAssets] at h; simp [h.symm]
  | p :: ps, as, h => by
    rcases hot : getOtherToken p inputMint with _ | next
    · simp [walkAssets, hot] at h
    · simp only [walkAssets, hot, Option.map_eq_some'] at h
      obtain ⟨as', h', rfl⟩ := h
      simpa using walkAssets_length h'

theorem walkAssets_concat {p : PoolInfo} {u : Nat} :
    ∀ {ps : List PoolInfo} {inputMint : Nat} {as : List Nat},
      walkAssets inputMint ps = some as →
      getOtherToken p (as.getLastD inputMint) = some u →
      walkAssets inputMint (ps ++ [p]) = some (as ++ [u])
  | [], inputMint, as, hw, hot => by
    simp [walkAssets] at hw
    subst hw
    simp only [List.getLastD_nil] at hot
    simp [walkAssets, hot]
  | q :: ps, inputMint, as, hw, hot => by
    rcases hoq : getOtherToken q inputMint with _ | next
    · simp [walkAssets, hoq] at hw
    · simp only [walkAssets, hoq, Option.map_eq_some'] at hw
      obtain ⟨as', hw', rfl⟩ := hw
      rw [List.getLastD_cons] at hot
      have := walkAssets_concat hw' hot
      simp [walkAssets, hoq, this]

theorem mem_cons_getLastD {i t : Nat} {as : List Nat}
    (h : t ∈ i :: as) : t ∈ (i :: as).dropLast ∨ t = as.getLastD i := by
  have hne : (i :: as) ≠ [] := List.cons_ne_nil _ _
  have hsplit := List.dropLast_append_getLast hne
  rw [← hsplit] at h
  rcases List.mem_append.mp h with h' | h'
  · exact Or.inl h'
  · simp only [List.mem_singleton] at h'
    exact Or.inr (h'.trans (List.getLast_eq_getLastD _ _ _))

theorem expandPool_preserves
    {pools : List PoolInfo} {maxHops : Int} {inputMint : Nat}
    {visited' : List Nat} {current : PathNode}
    (Hcur : NodeOK pools maxHops inputMint visited' current)
    (Htok : current.token ∈ visited')
    (Hhops : (current.hops : Int) < maxHops)
    {p : PoolInfo} (hp : p ∈ pools)
    {acc : List PathNode × (Nat → Option (Nat × Nat))}
    (Hacc : ∀ n ∈ acc.1, NodeOK pools maxHops inputMint visited' n) :
    ∀ n ∈ (expandPool visited' current acc p).1,
      NodeOK pools maxHops inputMint visited' n := by
  intro n hn
  simp only [expandPool] at hn
  rcases hot : getOtherToken p current.token with _ | nextToken <;>
    rw [hot] at hn <;> simp only [] at hn
  · exact Hacc n hn
  by_cases hv : nextToken ∈ visited'
  · rw [if_pos hv] at hn
    exact Hacc n hn
  rw [if_neg hv] at hn
  rcases hout : getOutputAmount p current.token current.amountOut with _ | amountOut <;>
    rw [hout] at hn <;> simp only [] at hn
  · exact Hacc n hn
  by_cases hz : amountOut = 0
  · rw [if_pos hz] at hn
    exact Hacc n hn
  rw [if_neg hz] at hn
  by_cases hse :
      (match acc.2 nextToken with
        | none => true
        | some best =>
            best.1 < amountOut ||
              (amountOut == best.1 && current.hops + 1 < best.2) : Bool) = true
  swap
  · rw [if_neg hse] at hn
    exact Hacc n hn
  rw [if_pos hse] at hn
  rcases List.mem_append.mp hn with hmem | hmem
  · exact Hacc n hmem
  have hn' := List.mem_singleton.mp hmem
  subst hn'
  obtain ⟨ps, as, h1, h2, h3, h4, h5, h6, h7, h8⟩ := Hcur
  have hallvis : ∀ t ∈ inputMint :: as, t ∈ visited' := by
    intro t ht
    rcases mem_cons_getLastD ht with ht' | ht'
    · exact h7 t ht'
    · rw [ht', ← h5]
      exact Htok
  refine ⟨ps ++ [p], as ++ [nextToken], ?_, ?_, ?_, ?_, ?_, ?_, ?_, ?_⟩
  · simp [h1]
  · intro q hq
    rcases List.mem_append.mp hq with hq' | hq'
    · exact h2 q hq'
    · rw [List.mem_singleton.mp hq']
      exact hp
  · rw [h5] at hot
    exact walkAssets_concat h3 hot
  · simp [h4]
  · simp
  · rw [← List.cons_append]
    refine List.Nodup.append h6 (by simp) ?_
    intro t ht ht'
    rw [List.mem_singleton.mp ht'] at ht
    exact hv (hallvis _ ht)
  · rw [← List.cons_append, List.dropLast_concat]
    exact hallvis
  · intro _
    refine ⟨Nat.pos_of_ne_zero hz, ?_⟩
    have : (current.hops : Int) = (ps.length : Int) := by exact_mod_cast h4
    simp only [List.length_append, List.length_singleton]
    omega

theorem foldl_expandPool_preserves
    {pools : List PoolInfo} {maxHops : Int} {inputMint : Nat}
    {visited' : List Nat} {current : PathNode}
    (Hcur : NodeOK pools maxHops inputMint visited' current)
    (Htok : current.token ∈ visited')
    (Hhops : (current.hops : Int) < maxHops) :
    ∀ (qs : List PoolInfo), (∀ p ∈ qs, p ∈ pools) →
      ∀ (acc : List PathNode × (Nat → Option (Nat × Nat))),
        (∀ n ∈ acc.1, NodeOK pools maxHops inputMint visited' n) →
        ∀ n ∈ (qs.foldl (expandPool visited' current) acc).1,
          NodeOK pools maxHops inputMint visited' n
  | [], _, _, Hacc => Hacc
  | q :: qs, hq, acc, Hacc => by
    refine foldl_expandPool_preserves Hcur Htok Hhops qs
      (fun p hp => hq p (List.mem_cons_of_mem _ hp)) _ ?_
    exact expandPool_preserves Hcur Htok Hhops (hq q (List.mem_cons_self _ _)) Hacc

theorem solOK_of_dest {pools : List PoolInfo} {maxHops : Int}
    {inputMint outputMint : Nat} {visited : List Nat} {current : PathNode}
    (hio : inputMint ≠ outputMint)
    (hcur : NodeOK pools maxHops inputMint visited current)
    (hdest : current.token = outputMint) :
    SolOK pools maxHops inputMint (some (current.path, current.amountOut)) := by
  intro r amt heq
  have heq' := Option.some.inj heq
  cases heq'
  obtain ⟨ps, as, h1, h2, h3, h4, h5, h6, h7, h8⟩ := hcur
  have hpsne : ps ≠ [] := by
    rintro rfl
    have has : as = [] := by
      have := h3
      simp [walkAssets] at this
      exact this
    rw [has] at h5
    simp only [List.getLastD_nil] at h5
    exact hio (h5.symm.trans hdest)
  obtain ⟨hpos, hlen⟩ := h8 hpsne
  refine ⟨by simp [h1, hpsne], hpos, by simpa [h1] using hlen,
    ps, as, h1, h2, h3, h6⟩

theorem searchLoop_solOK (pools : List PoolInfo) (maxHops : Int)
    (inputMint outputMint : Nat) (hio : inputMint ≠ outputMint) :
    ∀ (fuel : Nat) (st : SearchState),
      StateOK pools maxHops inputMint st →
      SolOK pools maxHops inputMint
        (searchLoop pools maxHops outputMint fuel st)
  | 0, _, hst => hst.2
  | Nat.succ fuel, st, hst => by
    rw [searchLoop]
    cases hsort : sortNodes st.openSet with
    | nil => exact hst.2
    | cons current rest =>
      have hcur : NodeOK pools maxHops inputMint st.visited current := by
        apply hst.1
        apply mem_sortNodes
        rw [hsort]
        exact List.mem_cons_self _ _
      have hrest : ∀ n ∈ rest, NodeOK pools maxHops inputMint st.visited n := by
        intro n hn
        apply hst.1
        apply mem_sortNodes
        rw [hsort]
        exact List.mem_cons_of_mem _ hn
      simp only []
      split
      · exact searchLoop_solOK pools maxHops inputMint outputMint hio fuel
          { st with openSet := rest } ⟨fun n hn => hrest n hn, hst.2⟩
      split
      · next hdest =>
        refine searchLoop_solOK pools maxHops inputMint outputMint hio fuel
          _ ⟨fun n hn => hrest n hn, ?_⟩
        rcases hsol : st.bestSolution with _ | sol
        · simp only []
          exact solOK_of_dest hio hcur hdest
        · simp only []
          split
          · exact solOK_of_dest hio hcur hdest
          · intro r amt heq
            exact hst.2 r amt (hsol.trans heq)
      split
      · exact searchLoop_solOK pools maxHops inputMint outputMint hio fuel
          { st with openSet := rest } ⟨fun n hn => hrest n hn, hst.2⟩
      · next hhops =>
        have hlt : (current.hops : Int) < maxHops := not_le.mp hhops
        have hsub : ∀ t ∈ st.visited, t ∈ current.token :: st.visited :=
          fun t ht => List.mem_cons_of_mem _ ht
        refine searchLoop_solOK pools maxHops inputMint outputMint hio fuel
          _ ⟨?_, hst.2⟩
        intro n hn
        refine foldl_expandPool_preserves (NodeOK_mono hsub hcur)
          (List.mem_cons_self _ _) hlt pools (fun p hp => hp)
          (rest, st.bestRoutes) ?_ n hn
        intro m hm
        exact NodeOK_mono hsub (hrest m hm)

theorem findOptimalRoute_some {pools : List PoolInfo} {maxHops : Int}
    {inputMint outputMint amountIn : Nat} {r : List Nat} {amt : Nat}
    (h : findOptimalRoute pools maxHops inputMint outputMint amountIn =
      some (r, amt)) :
    r ≠ [] ∧ 0 < amt ∧ (r.length : Int) ≤ maxHops ∧
    ∃ ps as, r = ps.map PoolInfo.address ∧ (∀ p ∈ ps, p ∈ pools) ∧
      walkAssets inputMint ps = some as ∧ (inputMint :: as).Nodup := by
  unfold findOptimalRoute at h
  by_cases hio : inputMint = outputMint
  · rw [if_pos hio] at h
    cases h
  · rw [if_neg hio] at h
    refine searchLoop_solOK pools maxHops inputMint outputMint hio _ _
      ⟨?_, ?_⟩ r amt h
    · intro n hn
      have hn' : n = (⟨inputMint, 0, 0, [], amountIn⟩ : PathNode) := by
        simpa using hn
      subst hn'
      refine ⟨[], [], rfl, by simp, rfl, rfl, rfl, by simp, by simp, ?_⟩
      intro hne
      exact absurd rfl hne
    · intro r' amt' heq
      cases heq

theorem feeFoldl (pools : List PoolInfo) (a : Nat) :
    ∀ (route : List Nat) (acc : Nat),
      route.foldl (fun acc poolAddress =>
        match pools.find? (fun p => p.address == poolAddress) with
        | some pool => acc + a * pool.feeBps / 10000
        | none => acc) acc
      = acc + (route.map (fun addr =>
          match pools.find? (fun p => p.address == addr) with
          | some pool => a * pool.feeBps / 10000
          | none => 0)).sum
  | [], acc => by simp
  | addr :: rest, acc => by
    rcases hf : pools.find? (fun p => p.address == addr) with _ | pool <;>
      simp only [List.foldl_cons, List.map_cons, List.sum_cons, hf]
    · rw [feeFoldl pools a rest, Nat.zero_add]
    · rw [feeFoldl pools a rest, Nat.add_assoc]

/-- Claim C1 (code bug): global optimality fails.  On the five-pool
snapshot `cexPools` with hop bound 3, the simple path `cexP4, cexP5` from
mint `0` to mint `4` (assets `0, 3, 4`, no repetition, 2 ≤ 3 hops) has
positive compounded output 9 under the §4.1 pricing formula, yet
`findOptimalRoute` returns `null`: the search had expanded asset `3` early
(marking it visited) with an amount that a later, appreciating path would
have beaten. -/
theorem c1_search_misses_profitable_simple_path :
    pathfinderFindOptimalRoute cexPools 3 0 4 1000 = none ∧
    cexP4 ∈ cexPools ∧ cexP5 ∈ cexPools ∧
    walkAssets 0 [cexP4, cexP5] = some [3, 4] ∧
    ([0, 3, 4] : List Nat).Nodup ∧
    (([cexP4, cexP5].length : Int) ≤ clampMaxHops 3) ∧
    chainOutput 0 1000 [cexP4, cexP5] = some (4, 9) ∧ 0 < 9 := by
  refine ⟨by decide, by decide, by decide, by decide, by decide, by decide,
    by decide, by decide⟩

/-- Claim C2 (counterexample): a pool whose input-side reserve is zero is
not rejected — `getOutputAmount` returns `some 5` (the entire output
reserve), not `none`. -/
theorem c2_zero_reserve_counterexample :
    zeroReservePool.tokenA = 10 ∧ zeroReservePool.reserveA = 0 ∧
    getOutputAmount zeroReservePool 10 10 = some 5 := by
  refine ⟨by decide, by decide, by decide⟩

/-- Claim C2 (amended): `getOutputAmount` returns `none` exactly when the
input asset is in neither side of the pool or the denominator
`reserveIn × 10000 + amountIn × (10000 − feeBps)` is zero; a zero reserve
by itself does not make the pool unusable. -/
theorem c2_none_iff_no_side_or_zero_denominator (pool : PoolInfo)
    (t a : Nat) :
    getOutputAmount pool t a = none ↔
      (¬(t = pool.tokenA ∨ t = pool.tokenB)) ∨
      ((if t = pool.tokenA then pool.reserveA else pool.reserveB) * 10000 +
        a * (10000 - pool.feeBps) = 0) := by
  simp only [getOutputAmount]
  by_cases hmem : t = pool.tokenA ∨ t = pool.tokenB
  · rw [if_neg (by tauto)]
    by_cases hden :
        (if t = pool.tokenA then pool.reserveA else pool.reserveB) * 10000 +
          a * (10000 - pool.feeBps) = 0
    · rw [if_pos hden]
      exact ⟨fun _ => Or.inr hden, fun _ => rfl⟩
    · rw [if_neg hden]
      constructor
      · intro hc
        exact absurd hc (Option.some_ne_none _)
      · intro hc
        rcases hc with hc | hc
        · exact absurd hmem hc
        · exact absurd hc hden
  · rw [if_pos (by tauto)]
    exact ⟨fun _ => Or.inl hmem, fun _ => rfl⟩

/-- Claim C3 (confirmed): whenever the input asset is one of the pool's two
assets and the denominator is nonzero, `getOutputAmount` returns exactly
`floor(amountIn × (10000 − feeBps) × reserveOut /
(reserveIn × 10000 + amountIn × (10000 − feeBps)))` in exact integer
arithmetic; `amountIn = 0` yields 0; an input asset in neither side yields
`none`; and the state module's `getOutputAmount` computes the same
function. -/
theorem c3_exact_pricing_formula (pool : PoolInfo) (t a : Nat) :
    ((t = pool.tokenA ∨ t = pool.tokenB) →
      (if t = pool.tokenA then pool.reserveA else pool.reserveB) * 10000 +
          a * (10000 - pool.feeBps) ≠ 0 →
      getOutputAmount pool t a =
        some (a * (10000 - pool.feeBps) *
            (if t = pool.tokenA then pool.reserveB else pool.reserveA) /
          ((if t = pool.tokenA then pool.reserveA else pool.reserveB) * 10000 +
            a * (10000 - pool.feeBps)))) ∧
    (¬(t = pool.tokenA ∨ t = pool.tokenB) →
      getOutputAmount pool t a = none) ∧
    ((t = pool.tokenA ∨ t = pool.tokenB) →
      (if t = pool.tokenA then pool.reserveA else pool.reserveB) ≠ 0 →
      getOutputAmount pool t 0 = some 0) ∧
    stateGetOutputAmount pool t a = getOutputAmount pool t a := by
  refine ⟨?_, ?_, ?_, rfl⟩
  · intro hmem hden
    simp only [getOutputAmount]
    rw [if_neg (by tauto), if_neg hden]
  · intro hmem
    simp only [getOutputAmount]
    rw [if_pos (by tauto)]
  · intro hmem hres
    have hden : (if t = pool.tokenA then pool.reserveA else pool.reserveB) *
        10000 + 0 * (10000 - pool.feeBps) ≠ 0 := by
      by_cases hA : t = pool.tokenA <;> simp [hA] at hres ⊢ <;> omega
    simp only [getOutputAmount]
    rw [if_neg (by tauto), if_neg hden]
    simp

/-- Witness for C3, at the test suite's direct pool: input mint `10`,
1000 units in. -/
theorem c3_exact_pricing_formula_witness :
    getOutputAmount tstPool1 10 1000 =
      some (1000 * (10000 - 30) * 2000000 /
        (1000000 * 10000 + 1000 * (10000 - 30))) :=
  (c3_exact_pricing_formula tstPool1 10 1000).1 (Or.inl rfl) (by decide)

/-- Claim C4 (counterexample): a requested hop bound of `0` does not behave
as `1` — the single-pool direct swap is found with bound `1` but not with
bound `0`, because the constructor only clamps from above
(`Math.min(maxHops, 5)`). -/
theorem c4_no_lower_clamp_counterexample :
    pathfinderFindOptimalRoute [tstPool1] 0 10 11 1000 = none ∧
    pathfinderFindOptimalRoute [tstPool1] 1 10 11 1000 = some ([1], 1992) :=
  ⟨by decide, by decide⟩

/-- Claim C4 (amended): the enforced hop bound is `min(maxHops, 5)`: it
never exceeds 5 and a request of 5 or more behaves exactly as 5, but there
is no lower clamp — any request of at most 0 makes every search return
`null` instead of behaving as 1. -/
theorem c4_upper_clamp_only :
    (∀ m : Int, clampMaxHops m ≤ 5) ∧
    (∀ (m : Int) (pools : List PoolInfo) (i o a : Nat), 5 ≤ m →
      pathfinderFindOptimalRoute pools m i o a =
        pathfinderFindOptimalRoute pools 5 i o a) ∧
    (∀ (m : Int) (pools : List PoolInfo) (i o a : Nat), m ≤ 0 →
      pathfinderFindOptimalRoute pools m i o a = none) := by
  refine ⟨fun m => min_le_right _ _, ?_, ?_⟩
  · intro m pools i o a hm
    unfold pathfinderFindOptimalRoute
    have hcl : clampMaxHops m = clampMaxHops 5 := by
      simp [clampMaxHops, min_eq_right hm]
    rw [hcl]
  · intro m pools i o a hm
    rcases hres : pathfinderFindOptimalRoute pools m i o a with _ | result
    · rfl
    · exfalso
      obtain ⟨r, amt⟩ := result
      unfold pathfinderFindOptimalRoute at hres
      have hprops := findOptimalRoute_some hres
      have h1 : 0 < r.length := List.length_pos.mpr hprops.1
      have h2 : (r.length : Int) ≤ clampMaxHops m := hprops.2.2.1
      have h3 : clampMaxHops m ≤ 0 := le_trans (min_le_left m 5) hm
      omega

/-- Witness for C4 (amended): a request of 7 behaves as 5, and a request
of 0 returns `null`. -/
theorem c4_upper_clamp_only_witness :
    pathfinderFindOptimalRoute [tstPool1] 7 10 11 1000 =
      pathfinderFindOptimalRoute [tstPool1] 5 10 11 1000 ∧
    pathfinderFindOptimalRoute [tstPool1] 0 10 11 1000 = none :=
  ⟨c4_upper_clamp_only.2.1 7 [tstPool1] 10 11 1000 (by decide),
   c4_upper_clamp_only.2.2 0 [tstPool1] 10 11 1000 (by decide)⟩

/-- Claim C5 (confirmed): every returned route has length at most the
requested `maxHops`; in particular, with `maxHops = 1` and a snapshot whose
only input-to-output paths take 2 hops, the search returns `null`. -/
theorem c5_hop_budget_respected :
    (∀ (pools : List PoolInfo) (maxHops : Int) (i o a : Nat)
        (r : List Nat) (amt : Nat),
      pathfinderFindOptimalRoute pools maxHops i o a = some (r, amt) →
      (r.length : Int) ≤ maxHops) ∧
    pathfinderFindOptimalRoute [tstPool1, tstPool2] 1 10 12 1000 = none := by
  constructor
  · intro pools maxHops i o a r amt h
    unfold pathfinderFindOptimalRoute at h
    exact le_trans (findOptimalRoute_some h).2.2.1 (min_le_left _ _)
  · decide

/-- Witness for C5: the direct route found in the test pool has length
1 ≤ 3. -/
theorem c5_hop_budget_respected_witness :
    ((([1] : List Nat).length : Int) ≤ 3) :=
  c5_hop_budget_respected.1 [tstPool1] 3 10 11 1000 [1] 1992 (by decide)

/-- Claim C6 (confirmed): every returned route is simple — it is the
address trace of a pool sequence from the snapshot whose implied asset
sequence, starting at the input asset and alternating through each pool's
other asset, visits each asset at most once. -/
theorem c6_route_simplicity (pools : List PoolInfo) (maxHops : Int)
    (i o a : Nat) (r : List Nat) (amt : Nat)
    (h : pathfinderFindOptimalRoute pools maxHops i o a = some (r, amt)) :
    ∃ ps as, r = ps.map PoolInfo.address ∧ (∀ p ∈ ps, p ∈ pools) ∧
      walkAssets i ps = some as ∧ (i :: as).Nodup := by
  unfold pathfinderFindOptimalRoute at h
  exact (findOptimalRoute_some h).2.2.2

/-- Witness for C6, at the test suite's direct pool. -/
theorem c6_route_simplicity_witness :
    ∃ ps as, ([1] : List Nat) = ps.map PoolInfo.address ∧
      (∀ p ∈ ps, p ∈ [tstPool1]) ∧ walkAssets 10 ps = some as ∧
      ((10 : Nat) :: as).Nodup :=
  c6_route_simplicity [tstPool1] 3 10 11 1000 [1] 1992 (by decide)

/-- Claim C7 (counterexample): on the two-hop route through the test pools
with 10000 units in, the quote's fee is 60 (each hop charged on the
original input), whereas replaying the route hop-by-hop per the spec gives
30 + 59 = 89. -/
theorem c7_fee_replay_counterexample :
    (getSwapQuote [tstPool1, tstPool2] 3 10 12 10000).map SwapQuote.fee =
      some 60 ∧
    (getSwapQuote [tstPool1, tstPool2] 3 10 12 10000).map SwapQuote.route =
      some [1, 2] ∧
    specRouteFee [tstPool1, tstPool2] 10 10000 [1, 2] = some 89 ∧
    (60 : Nat) ≠ 89 :=
  ⟨by decide, by decide, by decide, by decide⟩

/-- Claim C7 (amended): the quote's fee field equals the sum over the
route's hops of `floor(amountIn × feeBps / 10000)` where `amountIn` is the
original input amount at every hop (an unresolvable address contributes
nothing), not the replayed per-hop input. -/
theorem c7_fee_original_amount (pools : List PoolInfo) (maxHops : Int)
    (i o a : Nat) (q : SwapQuote)
    (h : getSwapQuote pools maxHops i o a = some q) :
    q.fee = (q.route.map (fun addr =>
      match pools.find? (fun p => p.address == addr) with
      | some pool => a * pool.feeBps / 10000
      | none => 0)).sum := by
  unfold getSwapQuote at h
  rcases hr : pathfinderFindOptimalRoute pools maxHops i o a with _ | result <;>
    rw [hr] at h <;> simp only [] at h
  · cases h
  · have hq := Option.some.inj h
    subst hq
    simp only []
    rw [feeFoldl]
    simp

/-- Witness for C7 (amended), at the concrete two-hop quote. -/
theorem c7_fee_original_amount_witness :
    (⟨10000, 29237, 0, 60, [1, 2]⟩ : SwapQuote).fee =
      ((⟨10000, 29237, 0, 60, [1, 2]⟩ : SwapQuote).route.map (fun addr =>
        match [tstPool1, tstPool2].find? (fun p => p.address == addr) with
        | some pool => 10000 * pool.feeBps / 10000
        | none => 0)).sum :=
  c7_fee_original_amount [tstPool1, tstPool2] 3 10 12 10000
    ⟨10000, 29237, 0, 60, [1, 2]⟩ (by decide)

/-- Claim C8 (code bug): the quote's `priceImpact` field is the hardcoded
literal `0` (the code's own comment marks it "simplified ... implement
based on pool reserves"), while the §4.4 shortfall of the realized price
`1992/1000` against the first pool's spot price `2000000/1000000` is
`0.4%`, not `0`. -/
theorem c8_price_impact_hardcoded_zero :
    (getSwapQuote [tstPool1] 3 10 11 1000).map SwapQuote.priceImpact =
      some 0 ∧
    (getSwapQuote [tstPool1] 3 10 11 1000).map SwapQuote.outputAmount =
      some 1992 ∧
    (getSwapQuote [tstPool1] 3 10 11 1000).map SwapQuote.route = some [1] ∧
    specPriceImpact tstPool1.reserveA tstPool1.reserveB 1000 1992 = 2 / 5 ∧
    (2 / 5 : ℚ) ≠ 0 := by
  refine ⟨by decide, by decide, by decide, ?_, by norm_num⟩
  have h : specPriceImpact 1000000 2000000 1000 1992 = 2 / 5 := by
    norm_num [specPriceImpact]
  exact h

/-- Claim C9 (code bug): monotonicity in the hop bound fails.  On the
snapshot `cexPools`, hop bound 2 finds the route `[104, 105]` with output
9, but raising the bound to 3 makes the search return `null`: the extra
expansion of asset `3`'s two-hop arrival marks it visited and poisons the
cheap path. -/
theorem c9_hop_bound_not_monotone :
    pathfinderFindOptimalRoute cexPools 2 0 4 1000 = some ([104, 105], 9) ∧
    pathfinderFindOptimalRoute cexPools 3 0 4 1000 = none ∧
    ((2 : Int) ≤ 3) :=
  ⟨by decide, by decide, by decide⟩

/-- Claim C10 (confirmed): a non-null search result always carries a
non-empty route and a strictly positive output amount. -/
theorem c10_result_nonempty_positive (pools : List PoolInfo) (maxHops : Int)
    (i o a : Nat) (r : List Nat) (amt : Nat)
    (h : pathfinderFindOptimalRoute pools maxHops i o a = some (r, amt)) :
    r ≠ [] ∧ 0 < amt := by
  unfold pathfinderFindOptimalRoute at h
  exact ⟨(findOptimalRoute_some h).1, (findOptimalRoute_some h).2.1⟩

/-- Witness for C10, at the test suite's direct pool. -/
theorem c10_result_nonempty_positive_witness :
    ([1] : List Nat) ≠ [] ∧ 0 < 1992 :=
  c10_result_nonempty_positive [tstPool1] 3 10 11 1000 [1] 1992 (by decide)

end Wayfinder
